import Mathlib

/-!
Verification of the AniConvert track-selection and scan-parsing core.

This file gives a shallow embedding, in Lean 4, of the parsing,
reconciliation, selection and consistency-check logic of
`src/aniconvert.py` (the canonical script) and, where a claim touches it,
of the older variant `src/main.py`.  Python strings are modelled as Lean
`String`s (with `List Char` contents), Python `None`-able values as
`Option`, exceptions as `Except`, and the in-place mutation of the
`title` field as a functional update.  Each embedded definition carries a
comment pointing at the Python function it translates.
-/

/-! ## Data model (aniconvert.py classes)

The descriptor classes carry exactly the fields assigned in their
`__init__` methods.  `title` is `None` until `merge_track_titles` fills
it in, hence `Option String`.
-/

/-- Audio track descriptor, from `HandBrakeAudioInfo.__init__`
(aniconvert.py lines 151-165): `index`, `description`, `language_code`
are taken from `pattern1`, the optional `sample_rate`/`bit_rate` pair
from `pattern2`, and `title` starts out as `None`. -/
structure HandBrakeAudioInfo where
  index : Nat
  description : String
  language_code : String
  sample_rate : Option Nat
  bit_rate : Option Nat
  title : Option String
deriving DecidableEq

/-- Subtitle track descriptor, from `HandBrakeSubtitleInfo.__init__`
(aniconvert.py lines 204-213). -/
structure HandBrakeSubtitleInfo where
  index : Nat
  language : String
  language_code : String
  format : String
  source : String
  title : Option String
deriving DecidableEq

/-- Track layout of one scanned file, from `HandBrakeTrackInfo.__init__`
(aniconvert.py lines 247-250): the ordered tuples of audio and subtitle
descriptors. -/
structure HandBrakeTrackInfo where
  audio_tracks : List HandBrakeAudioInfo
  subtitle_tracks : List HandBrakeSubtitleInfo
deriving DecidableEq

/-- Secondary (FFmpeg) stream record, from `FFmpegStreamInfo.__init__`
(aniconvert.py lines 138-144).  Note the source keeps `stream_index` as
the raw matched string (it never calls `int` on it), the language code
comes from an optional regex group, and `metadata` is a string-keyed
dict, modelled as an association list with unique keys. -/
structure FFmpegStreamInfo where
  stream_index : String
  codec_type : String
  codec_name : String
  language_code : Option String
  metadata : List (String × String)
deriving DecidableEq

/-! ## The program's equality relations

These translate the `__eq__` methods verbatim.  The corresponding
`__hash__` methods hash exactly the tuples compared here, so the Python
`set` used by `get_track_info_for_directory` deduplicates precisely by
these relations.
-/

/-- Equality test of `HandBrakeAudioInfo.__eq__` (aniconvert.py lines
188-198), translated comparison-for-comparison: the source compares
`language_code` twice and never compares `bit_rate` (the same slip is in
`__hash__`, and in main.py lines 179-188, which also lacks `title`). -/
def hbAudioEq (a b : HandBrakeAudioInfo) : Bool :=
  a.index == b.index &&
  a.description == b.description &&
  a.language_code == b.language_code &&
  a.sample_rate == b.sample_rate &&
  a.language_code == b.language_code &&
  a.title == b.title

/-- Equality test of `HandBrakeSubtitleInfo.__eq__` (aniconvert.py lines
234-244): all five parsed fields plus `title`. -/
def hbSubtitleEq (a b : HandBrakeSubtitleInfo) : Bool :=
  a.index == b.index &&
  a.language == b.language &&
  a.language_code == b.language_code &&
  a.format == b.format &&
  a.source == b.source &&
  a.title == b.title

/-- Element-wise equality of two tuples (Python tuple `==` over the
descriptor tuples held by `HandBrakeTrackInfo`). -/
def listBEq {α : Type} (eq : α → α → Bool) : List α → List α → Bool
  | [], [] => true
  | a :: as, b :: bs => eq a b && listBEq eq as bs
  | _, _ => false

/-- Equality test of `HandBrakeTrackInfo.__eq__` (aniconvert.py lines
258-264): component-wise tuple equality of the audio and subtitle
descriptor tuples, each element compared by its class `__eq__`. -/
def trackInfoEq (x y : HandBrakeTrackInfo) : Bool :=
  listBEq hbAudioEq x.audio_tracks y.audio_tracks &&
  listBEq hbSubtitleEq x.subtitle_tracks y.subtitle_tracks

/-! ## Batch track-layout consistency check -/

/-- Model of `track_info_set.add(track_info)` for the Python `set` in
`get_track_info_for_directory`: the element is inserted unless an
`__eq__`-equal member is already present (`__hash__` is consistent with
`__eq__`, so hashing never separates `__eq__`-equal layouts). -/
def add_track_info (s : List HandBrakeTrackInfo) (x : HandBrakeTrackInfo) :
    List HandBrakeTrackInfo :=
  if s.any (fun y => trackInfoEq y x) then s else s ++ [x]

/-- Loop of `get_track_info_for_directory` (aniconvert.py lines 443-454).
`scan` stands for `get_track_info` on one file; `scanned` counts how many
files have been scanned so far, so that the short-circuit behaviour is
visible in the result.  On the empty-set exit path the source calls
`track_info_set.pop()`, which for the one-element set returns its single
element (for an empty file list it would raise `KeyError`; the claims
only concern non-empty directories). -/
def gtifd_go {α : Type} (scan : α → HandBrakeTrackInfo)
    (s : List HandBrakeTrackInfo) (scanned : Nat) :
    List α → Option HandBrakeTrackInfo × Nat
  | [] => (s.head?, scanned)
  | f :: rest =>
    let s2 := add_track_info s (scan f)
    if s2.length > 1 then (none, scanned + 1)
    else gtifd_go scan s2 (scanned + 1) rest

/-- Model of `get_track_info_for_directory` (aniconvert.py lines
443-454): first component is the returned shared layout (`none` models
the `return None` on a layout mismatch), second component the number of
files scanned before returning. -/
def get_track_info_for_directory {α : Type} (scan : α → HandBrakeTrackInfo)
    (file_names : List α) : Option HandBrakeTrackInfo × Nat :=
  gtifd_go scan [] 0 file_names

/-! Concrete descriptors used by counterexamples and witnesses. -/

/-- Audio descriptor with both optional rate fields populated. -/
def audioJpn128 : HandBrakeAudioInfo :=
  { index := 1, description := "AAC 5.1", language_code := "jpn",
    sample_rate := some 48000, bit_rate := some 128000, title := none }

/-- Same descriptor as `audioJpn128` except for `bit_rate`. -/
def audioJpn192 : HandBrakeAudioInfo :=
  { index := 1, description := "AAC 5.1", language_code := "jpn",
    sample_rate := some 48000, bit_rate := some 192000, title := none }

/-- Same descriptor as `audioJpn128` except for `language_code`. -/
def audioEng128 : HandBrakeAudioInfo :=
  { index := 1, description := "AAC 5.1", language_code := "eng",
    sample_rate := some 48000, bit_rate := some 128000, title := none }

/-- Layout containing only `audioJpn128`. -/
def layoutJpn128 : HandBrakeTrackInfo :=
  { audio_tracks := [audioJpn128], subtitle_tracks := [] }

/-- Layout containing only `audioJpn192`: structurally different from
`layoutJpn128` (the bit rates disagree) but equal to it under
`trackInfoEq`. -/
def layoutJpn192 : HandBrakeTrackInfo :=
  { audio_tracks := [audioJpn192], subtitle_tracks := [] }

/-- Layout containing only `audioEng128`: different from `layoutJpn128`
under `trackInfoEq` as well. -/
def layoutEng128 : HandBrakeTrackInfo :=
  { audio_tracks := [audioEng128], subtitle_tracks := [] }

/-- Directory of two files whose layouts differ only in an audio bit
rate. -/
def scanBitRateDir : Nat → HandBrakeTrackInfo :=
  fun n => if n = 0 then layoutJpn128 else layoutJpn192

/-- Directory of two files whose layouts differ in a language code. -/
def scanLangDir : Nat → HandBrakeTrackInfo :=
  fun n => if n = 0 then layoutJpn128 else layoutEng128

/-! ## Theorems: descriptor equality (C3) and consistency check (C2) -/

/-- C3: the claim states that two `HandBrakeAudioInfo` descriptors
differing only in `bitRateBps` are not equal.  The source's `__eq__`
contradicts this (and its own field list, which repeats `language_code`
where `bit_rate` belongs): `audioJpn128` and `audioJpn192` differ only
in `bit_rate`, are structurally distinct, and yet compare equal. -/
theorem audio_eq_ignores_bit_rate :
    hbAudioEq audioJpn128 audioJpn192 = true ∧
    audioJpn128.bit_rate ≠ audioJpn192.bit_rate ∧
    audioJpn128 ≠ audioJpn192 := by
  refine ⟨by decide, by decide, by decide⟩

/-- Auxiliary: while every further scanned layout is `trackInfoEq`-equal
to the one already in the set, the set stays `[first]` and the loop runs
to the end of the file list. -/
theorem gtifd_go_all_eq {α : Type} (scan : α → HandBrakeTrackInfo)
    (first : HandBrakeTrackInfo) (n : Nat) :
    ∀ rest : List α, (∀ f ∈ rest, trackInfoEq first (scan f) = true) →
      gtifd_go scan [first] n rest = (some first, n + rest.length) := by
  intro rest
  induction rest generalizing n with
  | nil => intro _; simp [gtifd_go]
  | cons f rest ih =>
    intro h
    have hf : trackInfoEq first (scan f) = true := h f (List.mem_cons_self f rest)
    have hrest : ∀ g ∈ rest, trackInfoEq first (scan g) = true :=
      fun g hg => h g (List.mem_cons_of_mem f hg)
    simp only [gtifd_go, add_track_info, List.any_cons, List.any_nil, hf]
    simp only [Bool.true_or, if_true, List.length_singleton]
    rw [if_neg (by decide)]
    rw [ih (n + 1) hrest]
    simp [List.length_cons]
    omega

/-- Auxiliary: the first scanned layout that is not `trackInfoEq`-equal
to the set's single member makes the set grow to two elements, at which
point the loop returns `none` without touching later files. -/
theorem gtifd_go_mismatch {α : Type} (scan : α → HandBrakeTrackInfo)
    (first : HandBrakeTrackInfo) (m : α) (post : List α) :
    ∀ (pre : List α) (n : Nat),
      (∀ f ∈ pre, trackInfoEq first (scan f) = true) →
      trackInfoEq first (scan m) = false →
      gtifd_go scan [first] n (pre ++ m :: post) = (none, n + pre.length + 1) := by
  intro pre
  induction pre with
  | nil =>
    intro n _ hm
    simp only [List.nil_append, gtifd_go, add_track_info,
      List.any_cons, List.any_nil, hm]
    simp
  | cons f pre ih =>
    intro n h hm
    have hf : trackInfoEq first (scan f) = true := h f (List.mem_cons_self f pre)
    have hpre : ∀ g ∈ pre, trackInfoEq first (scan g) = true :=
      fun g hg => h g (List.mem_cons_of_mem f hg)
    simp only [List.cons_append, gtifd_go, add_track_info,
      List.any_cons, List.any_nil, hf]
    simp only [Bool.true_or, if_true, List.length_singleton]
    rw [if_neg (by decide)]
    show gtifd_go scan [first] (n + 1) (pre ++ m :: post) =
      (none, n + (f :: pre).length + 1)
    rw [ih (n + 1) hpre hm]
    simp only [List.length_cons, Prod.mk.injEq, true_and]
    omega

/-- C2 (amended): over a non-empty directory, the consistency check
returns a shared layout precisely when every scanned layout is equal to
the first one under the program's layout equality `trackInfoEq` (which,
by the `__eq__` slip shown in `audio_eq_ignores_bit_rate`, ignores audio
bit rates); the returned layout is then the first file's, and all files
are scanned.  Otherwise, writing the remaining files as
`pre ++ m :: post` where `m` is the first file whose layout differs, the
check returns `none` after scanning exactly `pre.length + 2` files —
nothing after the file revealing the mismatch. -/
theorem directory_consistency_code_equality {α : Type}
    (scan : α → HandBrakeTrackInfo) (f0 : α) (rest : List α) :
    ((∀ f ∈ rest, trackInfoEq (scan f0) (scan f) = true) →
      get_track_info_for_directory scan (f0 :: rest) =
        (some (scan f0), rest.length + 1)) ∧
    (∀ (pre : List α) (m : α) (post : List α), rest = pre ++ m :: post →
      (∀ f ∈ pre, trackInfoEq (scan f0) (scan f) = true) →
      trackInfoEq (scan f0) (scan m) = false →
      get_track_info_for_directory scan (f0 :: rest) =
        (none, pre.length + 2)) := by
  constructor
  · intro h
    simp only [get_track_info_for_directory, gtifd_go, add_track_info,
      List.any_nil, if_neg Bool.false_ne_true, List.nil_append,
      List.length_singleton]
    rw [if_neg (by decide)]
    rw [gtifd_go_all_eq scan (scan f0) 1 rest h]
    simp only [Prod.mk.injEq, true_and]
    omega
  · intro pre m post hsplit hpre hm
    subst hsplit
    simp only [get_track_info_for_directory, gtifd_go, add_track_info,
      List.any_nil, if_neg Bool.false_ne_true, List.nil_append,
      List.length_singleton]
    rw [if_neg (by decide)]
    rw [gtifd_go_mismatch scan (scan f0) m post pre 1 hpre hm]
    simp only [Prod.mk.injEq, true_and]
    omega

/-- Witness for `directory_consistency_code_equality`: a two-file
directory whose second layout has a different language code is reported
as a mismatch with both files scanned. -/
theorem directory_consistency_code_equality_witness :
    get_track_info_for_directory scanLangDir [0, 1] = (none, 2) := by
  have h := (directory_consistency_code_equality scanLangDir 0 [1]).2
    [] 1 [] rfl (by intro f hf; cases hf) (by decide)
  simpa using h

/-- C2 counterexample: the two layouts of `scanBitRateDir` are not
structurally equal (their audio bit rates differ), yet the check accepts
the directory and returns the first file's layout after scanning both
files — refuting the claim that a shared layout is returned only when
all scanned layouts are structurally equal. -/
theorem directory_consistency_claim_counterexample :
    get_track_info_for_directory scanBitRateDir [0, 1] =
      (some layoutJpn128, 2) ∧
    layoutJpn128 ≠ layoutJpn192 := by
  refine ⟨by decide, by decide⟩

/-! ## Track selection policy

`filter_tracks_by_language` and `select_best_track` access only the
`language_code` attribute of their tracks (Python duck typing), so the
embedding is polymorphic in the track type and takes the attribute as an
explicit projection `langOf`.  The interactive `prompt_select_track`
collaborator is modelled as a callback `cb`; selection functions come
with an instrumented form whose second component records the descriptor
list of each callback invocation, so that "never prompts" claims are
expressible.
-/

/-- Model of Python `str.lower()`: character-wise ASCII lowering
(language codes and preference entries are ASCII by the program's own
validation). -/
def strToLower (s : String) : String :=
  ⟨s.data.map Char.toLower⟩

/-- List comprehension inside `filter_tracks_by_language` (aniconvert.py
line 467): the tracks whose language code case-insensitively equals the
given language. -/
def tracks_matching_language {τ : Type} (langOf : τ → String)
    (track_list : List τ) (language : String) : List τ :=
  track_list.filter (fun t => strToLower (langOf t) == strToLower language)

/-- Model of `filter_tracks_by_language` (aniconvert.py lines 464-470):
first preferred language with at least one match wins; no language
matching anything yields the empty list. -/
def filter_tracks_by_language {τ : Type} (langOf : τ → String)
    (track_list : List τ) : List String → List τ
  | [] => []
  | language :: rest =>
    let tracks := tracks_matching_language langOf track_list language
    if tracks.length ≥ 1 then tracks
    else filter_tracks_by_language langOf track_list rest

/-- Model of `get_track_by_index` (aniconvert.py lines 457-461): first
track with the given index, `none` modelling the `IndexError`. -/
def get_track_by_index {τ : Type} (idxOf : τ → Nat) (track_list : List τ)
    (track_index : Nat) : Option τ :=
  track_list.find? (fun t => idxOf t == track_index)

/-- Any track found by `get_track_by_index` belongs to the searched
list; this is what makes the prompt collaborator return an element of
the list it is shown. -/
theorem get_track_by_index_mem {τ : Type} (idxOf : τ → Nat)
    (track_list : List τ) (track_index : Nat) (t : τ)
    (h : get_track_by_index idxOf track_list track_index = some t) :
    t ∈ track_list :=
  List.mem_of_find?_eq_some h

/-- Model of `select_best_track` (aniconvert.py lines 507-529),
instrumented: the first component is the returned track (`none` models
`return None`), the second records the argument of each
`prompt_select_track` invocation, in order. -/
def select_best_track_instr {τ : Type} (cb : List τ → τ)
    (langOf : τ → String) (track_list : List τ)
    (preferred_languages : List String) : Option τ × List (List τ) :=
  if track_list.length = 0 then (none, [])
  else if track_list.length = 1 then (track_list[0]?, [])
  else
    let filtered_tracks :=
      filter_tracks_by_language langOf track_list preferred_languages
    if filtered_tracks.length = 1 then (filtered_tracks[0]?, [])
    else if filtered_tracks.length = 0 then
      (some (cb track_list), [track_list])
    else (some (cb filtered_tracks), [filtered_tracks])

/-- Value returned by `select_best_track`, without the instrumentation. -/
def select_best_track {τ : Type} (cb : List τ → τ) (langOf : τ → String)
    (track_list : List τ) (preferred_languages : List String) : Option τ :=
  (select_best_track_instr cb langOf track_list preferred_languages).1

/-- Model of main.py's `filter_tracks_by_language` (main.py lines
316-322): identical to the canonical one except that exhausting the
preference list falls back to the full input list instead of `[]`. -/
def main_filter_tracks_by_language {τ : Type} (langOf : τ → String)
    (track_list : List τ) : List String → List τ
  | [] => track_list
  | language :: rest =>
    let tracks := tracks_matching_language langOf track_list language
    if tracks.length ≥ 1 then tracks
    else main_filter_tracks_by_language langOf track_list rest

/-- Model of main.py's `select_best_track` (main.py lines 367-372),
instrumented like `select_best_track_instr`: no empty-input or
single-input guard exists in this variant. -/
def main_select_best_track_instr {τ : Type} (cb : List τ → τ)
    (langOf : τ → String) (track_list : List τ)
    (preferred_languages : List String) : Option τ × List (List τ) :=
  let filtered_tracks :=
    main_filter_tracks_by_language langOf track_list preferred_languages
  if filtered_tracks.length = 1 then (filtered_tracks[0]?, [])
  else (some (cb filtered_tracks), [filtered_tracks])

/-! Concrete tracks, projection and callback for witnesses. -/

/-- Japanese audio track used in concrete scenarios. -/
def trackJpn : HandBrakeAudioInfo :=
  { index := 1, description := "AAC", language_code := "jpn",
    sample_rate := none, bit_rate := none, title := none }

/-- English audio track used in concrete scenarios. -/
def trackEng : HandBrakeAudioInfo :=
  { index := 2, description := "AC3", language_code := "eng",
    sample_rate := none, bit_rate := none, title := none }

/-- Language-code projection for audio descriptors. -/
def audioLang : HandBrakeAudioInfo → String :=
  HandBrakeAudioInfo.language_code

/-- Concrete disambiguation callback: picks the first candidate
(defaulting to `trackJpn` on an empty list, which the canonical policy
never passes). -/
def headCb : List HandBrakeAudioInfo → HandBrakeAudioInfo :=
  fun l => l.headD trackJpn

/-! ## Lemmas about language filtering -/

/-- Auxiliary: if no preferred language matches any track, the filter
returns the empty list. -/
theorem filter_tracks_no_match {τ : Type} (langOf : τ → String)
    (track_list : List τ) :
    ∀ pl : List String,
      (∀ l ∈ pl, tracks_matching_language langOf track_list l = []) →
      filter_tracks_by_language langOf track_list pl = [] := by
  intro pl
  induction pl with
  | nil => intro _; rfl
  | cons language rest ih =>
    intro h
    have hl : tracks_matching_language langOf track_list language = [] :=
      h language (List.mem_cons_self language rest)
    simp only [filter_tracks_by_language, hl]
    simpa using ih fun l hl2 => h l (List.mem_cons_of_mem language hl2)

/-- Auxiliary: the first preferred language with at least one match
determines the filter's result. -/
theorem filter_tracks_first_match {τ : Type} (langOf : τ → String)
    (track_list : List τ) (lang : String) (post : List String) :
    ∀ pre : List String,
      (∀ l ∈ pre, tracks_matching_language langOf track_list l = []) →
      tracks_matching_language langOf track_list lang ≠ [] →
      filter_tracks_by_language langOf track_list (pre ++ lang :: post) =
        tracks_matching_language langOf track_list lang := by
  intro pre
  induction pre with
  | nil =>
    intro _ hm
    have hp : (tracks_matching_language langOf track_list lang).length ≥ 1 := by
      have := List.length_pos.mpr hm
      omega
    simp only [List.nil_append, filter_tracks_by_language, if_pos hp]
  | cons l0 pre ih =>
    intro h hm
    have hl0 : tracks_matching_language langOf track_list l0 = [] :=
      h l0 (List.mem_cons_self l0 pre)
    simp only [List.cons_append, filter_tracks_by_language, hl0]
    rw [if_neg (by simp)]
    exact ih (fun l hl => h l (List.mem_cons_of_mem l0 hl)) hm

/-- Auxiliary: the filter result is an order-preserving sublist of the
input. -/
theorem filter_tracks_sublist {τ : Type} (langOf : τ → String)
    (track_list : List τ) :
    ∀ pl : List String,
      List.Sublist (filter_tracks_by_language langOf track_list pl)
        track_list := by
  intro pl
  induction pl with
  | nil => exact List.nil_sublist track_list
  | cons language rest ih =>
    simp only [filter_tracks_by_language]
    by_cases hp : (tracks_matching_language langOf track_list language).length ≥ 1
    · rw [if_pos hp]
      exact List.filter_sublist track_list
    · rw [if_neg hp]
      exact ih

/-! ## Theorems: selection policy (C1, C4, C8, C9, C10) -/

/-- C1: on an input of at least two same-kind descriptors, the policy
acts on the first preferred language with at least one case-insensitive
match — one match returns that track with no callback invocation, more
than one match invokes the callback on exactly the matching subset — and
when no preferred language matches any track, the callback is invoked on
the full original list and its result returned. -/
theorem select_best_track_first_language_policy {τ : Type}
    (langOf : τ → String) (cb : List τ → τ) (track_list : List τ)
    (h2 : 2 ≤ track_list.length) :
    (∀ (pre : List String) (lang : String) (post : List String),
      (∀ l ∈ pre, tracks_matching_language langOf track_list l = []) →
      tracks_matching_language langOf track_list lang ≠ [] →
      (((tracks_matching_language langOf track_list lang).length = 1 →
        select_best_track_instr cb langOf track_list (pre ++ lang :: post) =
          ((tracks_matching_language langOf track_list lang)[0]?, [])) ∧
       (2 ≤ (tracks_matching_language langOf track_list lang).length →
        select_best_track_instr cb langOf track_list (pre ++ lang :: post) =
          (some (cb (tracks_matching_language langOf track_list lang)),
           [tracks_matching_language langOf track_list lang])))) ∧
    (∀ pl : List String,
      (∀ l ∈ pl, tracks_matching_language langOf track_list l = []) →
      select_best_track_instr cb langOf track_list pl =
        (some (cb track_list), [track_list])) := by
  have h0 : ¬ track_list.length = 0 := by omega
  have h1 : ¬ track_list.length = 1 := by omega
  constructor
  · intro pre lang post hpre hm
    have hF := filter_tracks_first_match langOf track_list lang post pre hpre hm
    constructor
    · intro hlen
      simp only [select_best_track_instr, if_neg h0, if_neg h1, hF, hlen,
        if_pos rfl]
      simp
    · intro hlen
      have hne1 : ¬ (tracks_matching_language langOf track_list lang).length = 1 := by
        omega
      have hne0 : ¬ (tracks_matching_language langOf track_list lang).length = 0 := by
        omega
      simp only [select_best_track_instr, if_neg h0, if_neg h1, hF,
        if_neg hne1, if_neg hne0]
  · intro pl hpl
    have hF := filter_tracks_no_match langOf track_list pl hpl
    simp only [select_best_track_instr, if_neg h0, if_neg h1, hF]
    simp

/-- Witness for `select_best_track_first_language_policy`: two tracks,
preference `["jpn"]`; the single Japanese match is returned with no
callback invocation. -/
theorem select_best_track_first_language_policy_witness :
    select_best_track_instr headCb audioLang [trackJpn, trackEng] ["jpn"] =
      (some trackJpn, []) := by
  have h := ((select_best_track_first_language_policy audioLang headCb
      [trackJpn, trackEng] (by decide)).1 [] "jpn" []
      (by intro l hl; cases hl) (by decide)).1 (by decide)
  exact Eq.trans h (by decide)

/-- C4 (amended): in the canonical selection policy, the branch where
language filtering yields a single match never invokes the
disambiguation callback; the branch where filtering yields no match
invokes it exactly once, on the full original input list; the remaining
filtering branch (more than one match) invokes it exactly once, on the
matching subset.  Inputs of length at most one never reach filtering and
never invoke the callback. -/
theorem selection_callback_branches {τ : Type} (langOf : τ → String)
    (cb : List τ → τ) (track_list : List τ) (pl : List String) :
    (track_list.length ≤ 1 →
      (select_best_track_instr cb langOf track_list pl).2 = []) ∧
    (2 ≤ track_list.length →
      (((filter_tracks_by_language langOf track_list pl).length = 1 →
        (select_best_track_instr cb langOf track_list pl).2 = []) ∧
       ((filter_tracks_by_language langOf track_list pl).length = 0 →
        (select_best_track_instr cb langOf track_list pl).2 = [track_list]) ∧
       (2 ≤ (filter_tracks_by_language langOf track_list pl).length →
        (select_best_track_instr cb langOf track_list pl).2 =
          [filter_tracks_by_language langOf track_list pl]))) := by
  constructor
  · intro hle
    by_cases h0 : track_list.length = 0
    · simp [select_best_track_instr, h0]
    · have h1 : track_list.length = 1 := by omega
      simp [select_best_track_instr, h0, h1]
  · intro h2
    have h0 : ¬ track_list.length = 0 := by omega
    have h1 : ¬ track_list.length = 1 := by omega
    refine ⟨fun hlen => ?_, fun hlen => ?_, fun hlen => ?_⟩
    · simp only [select_best_track_instr, if_neg h0, if_neg h1, hlen,
        if_pos rfl]
      simp
    · have hne1 : ¬ (filter_tracks_by_language langOf track_list pl).length = 1 := by
        omega
      simp only [select_best_track_instr, if_neg h0, if_neg h1,
        if_neg hne1, hlen, if_pos rfl]
      simp
    · have hne1 : ¬ (filter_tracks_by_language langOf track_list pl).length = 1 := by
        omega
      have hne0 : ¬ (filter_tracks_by_language langOf track_list pl).length = 0 := by
        omega
      simp only [select_best_track_instr, if_neg h0, if_neg h1,
        if_neg hne1, if_neg hne0]

/-- Witness for `selection_callback_branches`: with two tracks and
preference `["fre"]` the filter is empty and the callback is invoked
once, on the full original list. -/
theorem selection_callback_branches_witness :
    (select_best_track_instr headCb audioLang [trackJpn, trackEng]
      ["fre"]).2 = [[trackJpn, trackEng]] :=
  ((selection_callback_branches audioLang headCb [trackJpn, trackEng]
    ["fre"]).2 (by decide)).2.1 (by decide)

/-- C4 counterexample: a two-track list in which no preferred language
matches anything.  Language filtering yields no match, yet the
disambiguation callback is invoked (once, on the full list), refuting
the claim that the no-match branch never invokes the callback. -/
theorem selection_no_match_invokes_callback :
    filter_tracks_by_language audioLang [trackJpn, trackEng] ["fre"] = [] ∧
    select_best_track_instr headCb audioLang [trackJpn, trackEng] ["fre"] =
      (some trackJpn, [[trackJpn, trackEng]]) := by
  refine ⟨by decide, by decide⟩

/-- C8: a single-element descriptor list is returned immediately, for
every preference list and callback, with no callback invocation. -/
theorem single_track_short_circuit {τ : Type} (langOf : τ → String)
    (cb : List τ → τ) (t : τ) (preferred_languages : List String) :
    select_best_track_instr cb langOf [t] preferred_languages =
      (some t, []) :=
  rfl

/-- C9: evaluation of main.py's `select_best_track` on an empty track
list.  Its filter falls back to the full (empty) list, the
single-match test fails, and the disambiguation callback is invoked on
the empty candidate list — the `EmptySelectionInput` condition the spec
declares unreachable.  (The canonical aniconvert.py variant instead
returns `none` before filtering, as `select_best_track_instr` shows.) -/
theorem main_select_empty_invokes_callback :
    main_select_best_track_instr headCb audioLang [] ["eng"] =
      (some trackJpn, [[]]) ∧
    (main_select_best_track_instr headCb audioLang [] ["eng"]).1 ≠ none := by
  refine ⟨rfl, by decide⟩

/-- C10: language filtering returns an order-preserving sublist of its
input, and — provided the callback returns an element of any non-empty
list it is given — selection returns `none` or an element of the
original input list. -/
theorem selection_returns_input_member {τ : Type} (langOf : τ → String)
    (cb : List τ → τ) (track_list : List τ) (pl : List String)
    (hcb : ∀ l : List τ, l ≠ [] → cb l ∈ l) :
    List.Sublist (filter_tracks_by_language langOf track_list pl)
      track_list ∧
    ∀ r, select_best_track cb langOf track_list pl = some r →
      r ∈ track_list := by
  refine ⟨filter_tracks_sublist langOf track_list pl, ?_⟩
  intro r hr
  unfold select_best_track select_best_track_instr at hr
  by_cases h0 : track_list.length = 0
  · simp [h0] at hr
  · rw [if_neg h0] at hr
    by_cases h1 : track_list.length = 1
    · rw [if_pos h1] at hr
      simp only at hr
      rcases List.getElem?_eq_some.mp hr with ⟨hlt, hget⟩
      exact hget ▸ List.getElem_mem hlt
    · rw [if_neg h1] at hr
      simp only at hr
      have hsub : filter_tracks_by_language langOf track_list pl ⊆ track_list :=
        (filter_tracks_sublist langOf track_list pl).subset
      by_cases hf1 : (filter_tracks_by_language langOf track_list pl).length = 1
      · rw [if_pos hf1] at hr
        simp only at hr
        rcases List.getElem?_eq_some.mp hr with ⟨hlt, hget⟩
        exact hsub (hget ▸ List.getElem_mem hlt)
      · rw [if_neg hf1] at hr
        by_cases hf0 : (filter_tracks_by_language langOf track_list pl).length = 0
        · rw [if_pos hf0] at hr
          simp only [Option.some.injEq] at hr
          have hne : track_list ≠ [] := by
            intro hnil
            rw [hnil] at h0
            exact h0 rfl
          exact hr ▸ hcb track_list hne
        · rw [if_neg hf0] at hr
          simp only [Option.some.injEq] at hr
          have hne : filter_tracks_by_language langOf track_list pl ≠ [] := by
            intro hnil
            rw [hnil] at hf0
            exact hf0 rfl
          exact hr ▸ hsub (hcb _ hne)

/-- Witness for `selection_returns_input_member`: on two concrete tracks
with preference `["eng"]`, the filter result is a sublist and the
selected English track is a member of the input. -/
theorem selection_returns_input_member_witness :
    List.Sublist (filter_tracks_by_language audioLang [trackJpn, trackEng]
      ["eng"]) [trackJpn, trackEng] ∧
    trackEng ∈ [trackJpn, trackEng] := by
  have hcb : ∀ l : List HandBrakeAudioInfo, l ≠ [] → headCb l ∈ l := by
    intro l hl
    cases l with
    | nil => exact absurd rfl hl
    | cons a as => simp [headCb]
  exact ⟨(selection_returns_input_member audioLang headCb
      [trackJpn, trackEng] ["eng"] hcb).1,
    (selection_returns_input_member audioLang headCb
      [trackJpn, trackEng] ["eng"] hcb).2 trackEng (by decide)⟩

/-! ## Stream metadata reconciler

`merge_track_titles` (aniconvert.py lines 396-402) works on either kind
of descriptor list, touching only `language_code` and `title`; the
embedding therefore again takes the attribute access `langOf` and the
title assignment `withTitle` as parameters.  The two failing `assert`
statements become a `MergeError`, and the in-place title assignment
becomes a returned updated list (it is observable only on success, since
an `AssertionError` aborts the file's scan).
-/

/-- Error raised by the `assert` statements of `merge_track_titles`:
"Track count mismatch" and "Track language code mismatch". -/
inductive MergeError where
  | trackCountMismatch
  | languageCodeMismatch
deriving DecidableEq

/-- Model of `ff_stream.metadata.get("title")`: value of the first (and,
by construction, only) binding of the key, `none` when absent. -/
def lookupMeta (metadata : List (String × String)) (key : String) :
    Option String :=
  (metadata.find? (fun p => p.1 == key)).map (fun p => p.2)

/-- Loop body of `merge_track_titles`: `zip` truncates at the shorter
list (unreachable under the length assert), each pair is checked for
case-sensitively equal language codes (the HandBrake side is a plain
string, the FFmpeg side an optional one, so Python's `==` compares
`some code` against the option), then the title is copied in. -/
def merge_zip {τ : Type} (langOf : τ → String)
    (withTitle : τ → Option String → τ) :
    List τ → List FFmpegStreamInfo → Except MergeError (List τ)
  | [], [] => .ok []
  | [], _ :: _ => .ok []
  | _ :: _, [] => .ok []
  | hb :: hbs, ff :: ffs =>
    if some (langOf hb) = ff.language_code then
      match merge_zip langOf withTitle hbs ffs with
      | .error e => .error e
      | .ok rest => .ok (withTitle hb (lookupMeta ff.metadata "title") :: rest)
    else .error .languageCodeMismatch

/-- Model of `merge_track_titles` (aniconvert.py lines 396-402).  The
guard `if not ff_streams: return` is true both for `None` (secondary
report absent) and for an empty list, hence the two no-op branches. -/
def merge_track_titles {τ : Type} (langOf : τ → String)
    (withTitle : τ → Option String → τ) (hb_tracks : List τ)
    (ff_streams : Option (List FFmpegStreamInfo)) :
    Except MergeError (List τ) :=
  match ff_streams with
  | none => .ok hb_tracks
  | some ffs =>
    if ffs.isEmpty then .ok hb_tracks
    else if hb_tracks.length = ffs.length then
      merge_zip langOf withTitle hb_tracks ffs
    else .error .trackCountMismatch

/-- Title assignment `hb_track.title = ...` for audio descriptors. -/
def setAudioTitle (t : HandBrakeAudioInfo) (title : Option String) :
    HandBrakeAudioInfo :=
  { t with title := title }

/-- Concrete FFmpeg audio stream record carrying a title. -/
def streamJpn : FFmpegStreamInfo :=
  { stream_index := "1", codec_type := "Audio", codec_name := "aac",
    language_code := some "jpn",
    metadata := [("title", "Japanese 5.1")] }

/-- Auxiliary: when every positional pair has equal language codes, the
merge loop succeeds and copies each record's title value. -/
theorem merge_zip_ok {τ : Type} (langOf : τ → String)
    (withTitle : τ → Option String → τ) :
    ∀ (hbs : List τ) (ffs : List FFmpegStreamInfo),
      (∀ (i : Nat) (h1 : i < hbs.length) (h2 : i < ffs.length),
        some (langOf (hbs.get ⟨i, h1⟩)) = (ffs.get ⟨i, h2⟩).language_code) →
      merge_zip langOf withTitle hbs ffs =
        .ok (List.zipWith (fun t f => withTitle t (lookupMeta f.metadata "title"))
          hbs ffs) := by
  intro hbs
  induction hbs with
  | nil => intro ffs _; cases ffs <;> rfl
  | cons hb hbs ih =>
    intro ffs h
    cases ffs with
    | nil => rfl
    | cons ff ffs =>
      have h0 : some (langOf hb) = ff.language_code :=
        h 0 (by simp) (by simp)
      have htail : ∀ (i : Nat) (h1 : i < hbs.length) (h2 : i < ffs.length),
          some (langOf (hbs.get ⟨i, h1⟩)) = (ffs.get ⟨i, h2⟩).language_code :=
        fun i h1 h2 =>
          h (i + 1) (by simpa using Nat.succ_lt_succ h1)
            (by simpa using Nat.succ_lt_succ h2)
      simp only [merge_zip]
      rw [if_pos h0, ih ffs htail]
      rfl

/-- Auxiliary: a positional pair with unequal language codes makes the
merge loop fail with the language-code assert. -/
theorem merge_zip_mismatch {τ : Type} (langOf : τ → String)
    (withTitle : τ → Option String → τ) :
    ∀ (hbs : List τ) (ffs : List FFmpegStreamInfo),
      (∃ (i : Nat) (h1 : i < hbs.length) (h2 : i < ffs.length),
        some (langOf (hbs.get ⟨i, h1⟩)) ≠ (ffs.get ⟨i, h2⟩).language_code) →
      merge_zip langOf withTitle hbs ffs = .error .languageCodeMismatch := by
  intro hbs
  induction hbs with
  | nil =>
    intro ffs h
    rcases h with ⟨i, h1, _, _⟩
    exact absurd h1 (by simp)
  | cons hb hbs ih =>
    intro ffs h
    cases ffs with
    | nil =>
      rcases h with ⟨i, _, h2, _⟩
      exact absurd h2 (by simp)
    | cons ff ffs =>
      by_cases h0 : some (langOf hb) = ff.language_code
      · have htail : ∃ (i : Nat) (h1 : i < hbs.length) (h2 : i < ffs.length),
            some (langOf (hbs.get ⟨i, h1⟩)) ≠ (ffs.get ⟨i, h2⟩).language_code := by
          rcases h with ⟨i, h1, h2, hne⟩
          cases i with
          | zero => exact absurd h0 (by simpa using hne)
          | succ j =>
            exact ⟨j, by simpa using Nat.lt_of_succ_lt_succ h1,
              by simpa using Nat.lt_of_succ_lt_succ h2, by simpa using hne⟩
        simp only [merge_zip]
        rw [if_pos h0, ih ffs htail]
      · simp only [merge_zip]
        rw [if_neg h0]

/-- C5 (amended): reconciliation is a no-op when the secondary records
are absent, and also when the secondary sequence is present but empty
(Python's falsiness test `if not ff_streams` conflates the two); when
the secondary sequence is present and non-empty, a length difference is
a fatal `trackCountMismatch`, a positional pair with unequal
(case-sensitive) language codes is a fatal `languageCodeMismatch`, and
on success each descriptor receives the corresponding record's "title"
metadata value (unset when the record has none). -/
theorem merge_track_titles_contract {τ : Type} (langOf : τ → String)
    (withTitle : τ → Option String → τ) (hb_tracks : List τ) :
    (merge_track_titles langOf withTitle hb_tracks none = .ok hb_tracks) ∧
    (merge_track_titles langOf withTitle hb_tracks (some []) =
      .ok hb_tracks) ∧
    (∀ ffs : List FFmpegStreamInfo, ffs ≠ [] →
      (hb_tracks.length ≠ ffs.length →
        merge_track_titles langOf withTitle hb_tracks (some ffs) =
          .error .trackCountMismatch) ∧
      (hb_tracks.length = ffs.length →
        ((∃ (i : Nat) (h1 : i < hb_tracks.length) (h2 : i < ffs.length),
            some (langOf (hb_tracks.get ⟨i, h1⟩)) ≠
              (ffs.get ⟨i, h2⟩).language_code) →
          merge_track_titles langOf withTitle hb_tracks (some ffs) =
            .error .languageCodeMismatch) ∧
        ((∀ (i : Nat) (h1 : i < hb_tracks.length) (h2 : i < ffs.length),
            some (langOf (hb_tracks.get ⟨i, h1⟩)) =
              (ffs.get ⟨i, h2⟩).language_code) →
          merge_track_titles langOf withTitle hb_tracks (some ffs) =
            .ok (List.zipWith
              (fun t f => withTitle t (lookupMeta f.metadata "title"))
              hb_tracks ffs)))) := by
  refine ⟨rfl, rfl, ?_⟩
  intro ffs hne
  have hemp : ffs.isEmpty = false := by
    cases ffs with
    | nil => exact absurd rfl hne
    | cons f fs => rfl
  constructor
  · intro hlen
    simp only [merge_track_titles, hemp, Bool.false_eq_true, if_false]
    rw [if_neg hlen]
  · intro hlen
    constructor
    · intro hmis
      simp only [merge_track_titles, hemp, Bool.false_eq_true, if_false]
      rw [if_pos hlen]
      exact merge_zip_mismatch langOf withTitle hb_tracks ffs hmis
    · intro hall
      simp only [merge_track_titles, hemp, Bool.false_eq_true, if_false]
      rw [if_pos hlen]
      exact merge_zip_ok langOf withTitle hb_tracks ffs hall

/-- Witness for `merge_track_titles_contract`: one audio track and one
language-matching stream record; the record's title is copied onto the
track. -/
theorem merge_track_titles_contract_witness :
    merge_track_titles audioLang setAudioTitle [trackJpn]
      (some [streamJpn]) =
      .ok [{ trackJpn with title := some "Japanese 5.1" }] := by
  have h := ((merge_track_titles_contract audioLang setAudioTitle
      [trackJpn]).2.2 [streamJpn] (by decide)).2 rfl |>.2
    (by
      intro i h1 h2
      match i with
      | 0 => rfl
      | j + 1 => exact absurd h1 (by simp))
  exact h.trans (congrArg Except.ok (by decide))

/-- C5 counterexample: a non-empty primary list against a present but
empty secondary list.  The lengths differ, yet reconciliation succeeds
as a no-op instead of failing with `trackCountMismatch`, refuting the
claim that any length difference of a present secondary sequence is
fatal. -/
theorem merge_empty_secondary_counterexample :
    merge_track_titles audioLang setAudioTitle [trackJpn] (some []) =
      .ok [trackJpn] ∧
    [trackJpn].length ≠ ([] : List FFmpegStreamInfo).length := by
  refine ⟨rfl, by decide⟩

/-! ## Track info parsing

The grammars are the anchored-at-start (`re.match`, no end anchor)
regular expressions of `HandBrakeAudioInfo` and `HandBrakeSubtitleInfo`.
They are embedded as executable matchers with Python's leftmost-greedy
backtracking semantics:

* `\d+` before a non-digit literal is maximal munch (`takeWhile`), since
  a shorter digit run would have to be followed by a digit, never by the
  literal `,`, `H` or `b` the patterns require next;
* a greedy group (`(.+)` or `(\S+)`) followed by more pattern is
  `greedyPlus`, which prefers putting the next character into the group
  (longest capture) and falls back to matching the continuation, exactly
  the order a backtracking engine explores;
* the absent end anchor means every matcher simply returns the
  unconsumed tail.
-/

/-- Conversion `int(match.group(n))` of a captured digit run. -/
def digitsToNat (ds : List Char) : Nat :=
  ds.foldl (fun n c => n * 10 + (c.toNat - '0'.toNat)) 0

/-- Character class `[a-z]` of the iso639-2 capture groups. -/
def isLowerAZ (c : Char) : Bool :=
  'a' ≤ c && c ≤ 'z'

/-- Character class `.` of a Python regex: anything but a newline. -/
def dotC (c : Char) : Bool :=
  c != '\n'

/-- Character class `\S` of a Python regex. -/
def nonSpace (c : Char) : Bool :=
  !c.isWhitespace

/-- Greedy one-or-more repetition of characters satisfying `p`, followed
by a continuation `tailFn`: the longest capture whose continuation
matches wins, mirroring a backtracking regex engine's preference
order. -/
def greedyPlus {β : Type} (p : Char → Bool) (tailFn : List Char → Option β) :
    List Char → Option (List Char × β)
  | [] => none
  | c :: rest =>
    if p c then
      match greedyPlus p tailFn rest with
      | some (d, b) => some (c :: d, b)
      | none =>
        match tailFn rest with
        | some b => some ([c], b)
        | none => none
    else none

/-- Literal fragment ` (iso639-2: ` shared by all three patterns. -/
def isoMark : List Char :=
  " (iso639-2: ".data

/-- Matches ` (iso639-2: ([a-z]{3}))` at the head of the input,
returning the language-code capture and the unconsumed tail. -/
def matchIsoAt (cs : List Char) : Option (List Char × List Char) :=
  if isoMark.isPrefixOf cs then
    match cs.drop isoMark.length with
    | a :: b :: c :: ')' :: tail =>
      if isLowerAZ a && isLowerAZ b && isLowerAZ c then
        some ([a, b, c], tail)
      else none
    | _ => none
  else none

/-- Matches ` (iso639-2: ([a-z]{3})), (\d+)Hz, (\d+)bps` at the head of
the input: the continuation of `pattern2`'s greedy description group. -/
def matchIso2At (cs : List Char) :
    Option (List Char × Nat × Nat × List Char) :=
  match matchIsoAt cs with
  | none => none
  | some (code, t1) =>
    match t1 with
    | ',' :: ' ' :: t2 =>
      let ds1 := t2.takeWhile Char.isDigit
      if ds1.isEmpty then none
      else
        match t2.drop ds1.length with
        | 'H' :: 'z' :: ',' :: ' ' :: t3 =>
          let ds2 := t3.takeWhile Char.isDigit
          if ds2.isEmpty then none
          else
            match t3.drop ds2.length with
            | 'b' :: 'p' :: 's' :: tail =>
              some (code, digitsToNat ds1, digitsToNat ds2, tail)
            | _ => none
        | _ => none
    | _ => none

/-- Matches the literal `, ` separating the index capture from the
description capture in all three patterns. -/
def expectCommaSpace (cs : List Char) : Option (List Char) :=
  match cs with
  | ',' :: ' ' :: r => some r
  | _ => none

/-- Matcher for `HandBrakeAudioInfo.pattern1`,
`(\d+), (.+) \(iso639-2: ([a-z]{3})\)` under `re.match`: captures
(index, description, language code) plus the unconsumed tail. -/
def pattern1Match (cs : List Char) :
    Option (Nat × List Char × List Char × List Char) :=
  let ds := cs.takeWhile Char.isDigit
  if ds.isEmpty then none
  else
    match expectCommaSpace (cs.drop ds.length) with
    | none => none
    | some r =>
      match greedyPlus dotC matchIsoAt r with
      | some (d, code, tail) => some (digitsToNat ds, d, code, tail)
      | none => none

/-- Matcher for `HandBrakeAudioInfo.pattern2`,
`(\d+), (.+) \(iso639-2: ([a-z]{3})\), (\d+)Hz, (\d+)bps` under
`re.match`: additionally captures the sample rate and bit rate. -/
def pattern2Match (cs : List Char) :
    Option (Nat × List Char × List Char × Nat × Nat × List Char) :=
  let ds := cs.takeWhile Char.isDigit
  if ds.isEmpty then none
  else
    match expectCommaSpace (cs.drop ds.length) with
    | none => none
    | some r =>
      match greedyPlus dotC matchIso2At r with
      | some (d, code, rate, brate, tail) =>
        some (digitsToNat ds, d, code, rate, brate, tail)
      | none => none

/-- Model of `HandBrakeAudioInfo.__init__` (aniconvert.py lines
151-165): `pattern1` must match or a `ValueError` reporting the
offending string is raised (Python formats it with `repr`; the quoting
is not modelled); index, description and language code come from the
`pattern1` match, and the rate pair is filled from groups 4 and 5 of the
`pattern2` match when that extended pattern also matches. -/
def hbAudioInfoInit (info_str : String) : Except String HandBrakeAudioInfo :=
  match pattern1Match info_str.data with
  | none => .error ("Unknown audio track info format: " ++ info_str)
  | some (idx, desc, code, _) =>
    match pattern2Match info_str.data with
    | some (_, _, _, rate, brate, _) =>
      .ok { index := idx, description := ⟨desc⟩, language_code := ⟨code⟩,
            sample_rate := some rate, bit_rate := some brate, title := none }
    | none =>
      .ok { index := idx, description := ⟨desc⟩, language_code := ⟨code⟩,
            sample_rate := none, bit_rate := none, title := none }

/-- Continuation after the subtitle pattern's format capture:
`\)\((\S+)\)` — close paren, open paren, greedy source capture, close
paren. -/
def matchSubSrcAt (cs : List Char) : Option (List Char × List Char) :=
  match cs with
  | ')' :: '(' :: t =>
    greedyPlus nonSpace
      (fun r => match r with | ')' :: tail => some tail | _ => none) t
  | _ => none

/-- Continuation of the subtitle pattern after the description capture:
` (iso639-2: ([a-z]{3})) \((\S+)\)\((\S+)\)`. -/
def matchSubIsoAt (cs : List Char) :
    Option (List Char × List Char × List Char × List Char) :=
  match matchIsoAt cs with
  | none => none
  | some (code, t1) =>
    match t1 with
    | ' ' :: '(' :: t2 =>
      match greedyPlus nonSpace matchSubSrcAt t2 with
      | some (fmt, src, tail) => some (code, fmt, src, tail)
      | none => none
    | _ => none

/-- Matcher for `HandBrakeSubtitleInfo.pattern`,
`(\d+), (.+) \(iso639-2: ([a-z]{3})\) \((\S+)\)\((\S+)\)` under
`re.match`. -/
def subPatternMatch (cs : List Char) :
    Option (Nat × List Char × List Char × List Char × List Char × List Char) :=
  let ds := cs.takeWhile Char.isDigit
  if ds.isEmpty then none
  else
    match expectCommaSpace (cs.drop ds.length) with
    | none => none
    | some r =>
      match greedyPlus dotC matchSubIsoAt r with
      | some (d, code, fmt, src, tail) =>
        some (digitsToNat ds, d, code, fmt, src, tail)
      | none => none

/-- Model of `HandBrakeSubtitleInfo.__init__` (aniconvert.py lines
204-213). -/
def hbSubtitleInfoInit (info_str : String) :
    Except String HandBrakeSubtitleInfo :=
  match subPatternMatch info_str.data with
  | none => .error ("Unknown subtitle track info format: " ++ info_str)
  | some (idx, lang, code, fmt, src, _) =>
    .ok { index := idx, language := ⟨lang⟩, language_code := ⟨code⟩,
          format := ⟨fmt⟩, source := ⟨src⟩, title := none }

/-! ## Section scanning -/

/-- Item marker `"    + "` of a track section (aniconvert.py line 341). -/
def sectionItemMark : String :=
  "    + "

/-- Test `output_lines[i].startswith(prefix)`. -/
def isItemLine (line : String) : Bool :=
  sectionItemMark.data.isPrefixOf line.data

/-- Slice `output_lines[i][prefix_len:]` stripping the 6-character item
marker. -/
def stripItem (line : String) : String :=
  ⟨line.data.drop sectionItemMark.data.length⟩

/-- Loop of `parse_handbrake_track_info` (aniconvert.py lines 340-350)
over the lines following the section sentinel: consumes consecutive
marker-bearing lines, feeding each stripped line to the kind-specific
constructor `parse` (whose `ValueError` aborts the whole parse), and
stops at the first line without the marker or at the end of input.
Returns the descriptors in input order and the number of lines
consumed. -/
def parseTrackLines {τ : Type} (parse : String → Except String τ) :
    List String → Except String (List τ × Nat)
  | [] => .ok ([], 0)
  | line :: rest =>
    if isItemLine line then
      match parse (stripItem line) with
      | .error e => .error e
      | .ok info =>
        match parseTrackLines parse rest with
        | .error e => .error e
        | .ok (tracks, n) => .ok (info :: tracks, n + 1)
    else .ok ([], 0)

/-- Model of `parse_handbrake_track_info` (aniconvert.py lines 340-350):
starts at the line after `start_index` and returns the index of the
first line past the section together with the parsed descriptors. -/
def parse_handbrake_track_info {τ : Type}
    (parse : String → Except String τ) (output_lines : List String)
    (start_index : Nat) : Except String (Nat × List τ) :=
  match parseTrackLines parse (output_lines.drop (start_index + 1)) with
  | .error e => .error e
  | .ok (tracks, n) => .ok (start_index + 1 + n, tracks)

/-! ## Theorems: parser error behaviour (C6) and rate fields (C7) -/

/-- Auxiliary: if every line of `good` bears the item marker and parses,
while `badLine` bears the marker but fails to parse with error `e`, the
section loop propagates exactly that error. -/
theorem parseTrackLines_error {τ : Type} (parse : String → Except String τ)
    (badLine : String) (rest : List String) (e : String)
    (hbadpre : isItemLine badLine = true)
    (hbad : parse (stripItem badLine) = .error e) :
    ∀ good : List String,
      (∀ l ∈ good, isItemLine l = true ∧ ∃ t, parse (stripItem l) = .ok t) →
      parseTrackLines parse (good ++ badLine :: rest) = .error e := by
  intro good
  induction good with
  | nil =>
    intro _
    simp only [List.nil_append, parseTrackLines, hbadpre, if_true, hbad]
  | cons l good ih =>
    intro h
    rcases h l (List.mem_cons_self l good) with ⟨hpre, t, ht⟩
    have htail := fun l2 hl2 => h l2 (List.mem_cons_of_mem l hl2)
    simp only [List.cons_append, parseTrackLines, hpre, if_true, ht,
      List.append_eq, ih htail]

/-- C6: whenever the lines following the section sentinel decompose as
well-formed marker lines, then a line that bears the section item marker
but fails the kind-specific grammar with error `e`, the section parser
fails with exactly that error (which, for the concrete constructors,
embeds the offending line's text) — the malformed line is never silently
dropped. -/
theorem malformed_track_line_fails {τ : Type}
    (parse : String → Except String τ) (output_lines : List String)
    (start_index : Nat) (good : List String) (badLine : String)
    (rest : List String) (e : String)
    (hsec : output_lines.drop (start_index + 1) = good ++ badLine :: rest)
    (hgood : ∀ l ∈ good, isItemLine l = true ∧
      ∃ t, parse (stripItem l) = .ok t)
    (hbadpre : isItemLine badLine = true)
    (hbad : parse (stripItem badLine) = .error e) :
    parse_handbrake_track_info parse output_lines start_index = .error e := by
  unfold parse_handbrake_track_info
  rw [hsec, parseTrackLines_error parse badLine rest e hbadpre hbad good hgood]

/-- Witness for `malformed_track_line_fails`: directly after the audio
sentinel, a line carrying the item marker whose payload fails the audio
grammar aborts the parse with the `ValueError` message naming that
payload. -/
theorem malformed_track_line_fails_witness :
    parse_handbrake_track_info hbAudioInfoInit
      ["  + audio tracks:", "    + garbage"] 0 =
      .error "Unknown audio track info format: garbage" := by
  exact malformed_track_line_fails hbAudioInfoInit
    ["  + audio tracks:", "    + garbage"] 0 [] "    + garbage" []
    "Unknown audio track info format: garbage" rfl
    (by intro l hl; cases hl) (by decide) rfl

/-- Auxiliary: a greedy group succeeds with a weaker continuation
whenever it succeeds with a stronger one. -/
theorem greedyPlus_mono {β γ : Type} (p : Char → Bool)
    (t1 : List Char → Option β) (t2 : List Char → Option γ)
    (hmono : ∀ cs, (t2 cs).isSome → (t1 cs).isSome) :
    ∀ cs, (greedyPlus p t2 cs).isSome → (greedyPlus p t1 cs).isSome := by
  intro cs
  induction cs with
  | nil => intro h; simp [greedyPlus] at h
  | cons c rest ih =>
    intro h
    simp only [greedyPlus] at h ⊢
    by_cases hp : p c = true
    · rw [if_pos hp] at h ⊢
      cases hg1 : greedyPlus p t1 rest with
      | some v => simp
      | none =>
        cases hg2 : greedyPlus p t2 rest with
        | some w =>
          have := ih (by rw [hg2]; rfl)
          rw [hg1] at this
          simp at this
        | none =>
          rw [hg2] at h
          cases ht2 : t2 rest with
          | none => rw [ht2] at h; simp at h
          | some b =>
            have := hmono rest (by rw [ht2]; rfl)
            cases ht1 : t1 rest with
            | none => rw [ht1] at this; simp at this
            | some b1 => simp [ht1]
    · rw [if_neg hp] at h
      simp at h

/-- Auxiliary: the extended audio continuation only succeeds where the
base iso continuation does. -/
theorem matchIso2At_implies_matchIsoAt (cs : List Char)
    (h : (matchIso2At cs).isSome) : (matchIsoAt cs).isSome := by
  unfold matchIso2At at h
  cases hi : matchIsoAt cs with
  | none => rw [hi] at h; simp at h
  | some v => rfl

/-- Auxiliary: any line matched by the extended audio pattern is also
matched by the base pattern (`pattern2` is `pattern1` followed by the
rate clause, and `re.match` has no end anchor). -/
theorem pattern2_implies_pattern1 (cs : List Char)
    (h : (pattern2Match cs).isSome) : (pattern1Match cs).isSome := by
  unfold pattern2Match at h
  unfold pattern1Match
  by_cases hds : (cs.takeWhile Char.isDigit).isEmpty = true
  · rw [if_pos hds] at h
    simp at h
  · rw [if_neg hds] at h
    rw [if_neg hds]
    cases hcs : expectCommaSpace (cs.drop (cs.takeWhile Char.isDigit).length) with
    | none => simp only [hcs] at h; simp at h
    | some r =>
      simp only [hcs] at h ⊢
      cases hg2 : greedyPlus dotC matchIso2At r with
      | none => simp only [hg2] at h; simp at h
      | some v =>
        have hg1 := greedyPlus_mono dotC matchIsoAt matchIso2At
          matchIso2At_implies_matchIsoAt r (by rw [hg2]; rfl)
        cases hg1m : greedyPlus dotC matchIsoAt r with
        | none => rw [hg1m] at hg1; simp at hg1
        | some w =>
          obtain ⟨d, code, tail⟩ := w
          simp only [hg1m]
          simp

/-- C7: a line matched by the extended audio grammar yields a
descriptor with both `sample_rate` and `bit_rate` populated with the
parsed integers; a line matched only by the base grammar yields both
absent; and every successfully parsed descriptor has the two fields
either both present or both absent. -/
theorem audio_rates_all_or_none (s : String) :
    (∀ (idx : Nat) (desc code : List Char) (rate brate : Nat)
        (tail : List Char),
      pattern2Match s.data = some (idx, desc, code, rate, brate, tail) →
      ∃ (i : Nat) (d c : String), hbAudioInfoInit s =
        .ok { index := i, description := d, language_code := c,
              sample_rate := some rate, bit_rate := some brate,
              title := none }) ∧
    ((pattern1Match s.data).isSome → pattern2Match s.data = none →
      ∃ (i : Nat) (d c : String), hbAudioInfoInit s =
        .ok { index := i, description := d, language_code := c,
              sample_rate := none, bit_rate := none, title := none }) ∧
    (∀ t, hbAudioInfoInit s = .ok t →
      (t.sample_rate.isSome ↔ t.bit_rate.isSome)) := by
  refine ⟨?_, ?_, ?_⟩
  · intro idx desc code rate brate tail h2
    have h1 : (pattern1Match s.data).isSome :=
      pattern2_implies_pattern1 s.data (by rw [h2]; rfl)
    cases hp1 : pattern1Match s.data with
    | none => rw [hp1] at h1; simp at h1
    | some v =>
      obtain ⟨i, d, c, tl⟩ := v
      refine ⟨i, ⟨d⟩, ⟨c⟩, ?_⟩
      unfold hbAudioInfoInit
      rw [hp1, h2]
  · intro h1 h2
    cases hp1 : pattern1Match s.data with
    | none => rw [hp1] at h1; simp at h1
    | some v =>
      obtain ⟨i, d, c, tl⟩ := v
      refine ⟨i, ⟨d⟩, ⟨c⟩, ?_⟩
      unfold hbAudioInfoInit
      rw [hp1, h2]
  · intro t ht
    unfold hbAudioInfoInit at ht
    cases hp1 : pattern1Match s.data with
    | none => rw [hp1] at ht; cases ht
    | some v =>
      obtain ⟨i, d, c, tl⟩ := v
      rw [hp1] at ht
      cases hp2 : pattern2Match s.data with
      | none =>
        rw [hp2] at ht
        simp only [Except.ok.injEq] at ht
        subst ht
        exact Iff.rfl
      | some w =>
        obtain ⟨i2, d2, c2, rate, brate, tl2⟩ := w
        rw [hp2] at ht
        simp only [Except.ok.injEq] at ht
        subst ht
        exact Iff.rfl

/-- Witness for `audio_rates_all_or_none`: a concrete extended-grammar
audio line is parsed with sample rate 48000 and bit rate 128000. -/
theorem audio_rates_all_or_none_witness :
    ∃ (i : Nat) (d c : String),
      hbAudioInfoInit "1, AAC (iso639-2: jpn), 48000Hz, 128000bps" =
        .ok { index := i, description := d, language_code := c,
              sample_rate := some 48000, bit_rate := some 128000,
              title := none } :=
  (audio_rates_all_or_none
    "1, AAC (iso639-2: jpn), 48000Hz, 128000bps").1
    1 "AAC".data "jpn".data 48000 128000 [] rfl
